import Mathlib

/-!
Formal model of the MCTS Content Optimizer (`tools/mcts_content_optimizer.py`
from the MAGI repository), a tree-search loop that critiques and rewrites a
piece of text against dynamically generated evaluation metrics.

Modelling conventions used throughout this development:
* Python floats are modelled as exact rationals (`ℚ`); the UCT formula, which
  uses `sqrt`/`log`, is modelled over `ℝ`.
* Completion-service (LLM) calls are nondeterministic I/O; each logical call
  site takes its outcome from an explicit oracle argument, so theorems
  quantify over every possible service behaviour.
* Mutable node dictionaries with parent pointers are modelled as a rose tree
  addressed by paths (lists of child indices); the parent chain of a node is
  exactly the chain of proper prefixes of its path.
-/

namespace MctsOpt

/-- Code points of a string, lower-cased; models Python `s.lower()` over the
string contents (ASCII case mapping). -/
def lower_chars (s : String) : List Char := s.data.map Char.toLower

/-- Split a character list at every whitespace character, keeping possibly
empty segments.  Dropping the empty segments yields exactly the maximal
non-whitespace runs, i.e. Python `str.split()` with no arguments. -/
def split_ws : List Char → List (List Char)
  | [] => [[]]
  | c :: cs =>
      let ws := split_ws cs
      if c.isWhitespace then [] :: ws
      else (c :: ws.headD []) :: ws.tail

/-- `set(s.lower().split())` as a duplicate-free list of words (each word a
list of code points); only its cardinality and membership are ever used. -/
def word_list (s : String) : List (List Char) :=
  ((split_ws (lower_chars s)).filter (fun w => !w.isEmpty)).dedup

/-- Cardinality of the intersection of two duplicate-free word lists. -/
def inter_len (A B : List (List Char)) : ℕ :=
  (A.filter (fun w => B.contains w)).length

/-- Union of two duplicate-free word lists, still duplicate-free. -/
def union_list (A B : List (List Char)) : List (List Char) :=
  A ++ B.filter (fun w => !A.contains w)

/-- `Tools._similarity`: word-set Jaccard similarity of two strings, `0.0`
when either string has no words. -/
def similarity (a b : String) : ℚ :=
  let A := word_list a
  let B := word_list b
  if A = [] ∨ B = [] then 0
  else (inter_len A B : ℚ) / ((union_list A B).length : ℚ)

/-- Whitespace-trim of a character list (both ends), as in Python `strip()`. -/
def trim_chars (l : List Char) : List Char :=
  ((l.dropWhile Char.isWhitespace).reverse.dropWhile Char.isWhitespace).reverse

/-- Python `s.strip()`. -/
def py_strip (s : String) : String := ⟨trim_chars s.data⟩

/-- Python `len(s)`: the number of code points. -/
def py_len (s : String) : ℕ := s.data.length

/-- `Tools._create_child`, candidate-validation part.  The two
completion-service results (the critique and the rewritten content) are
inputs; `none` models a falsy or failed `_llm_call` result.  The float
literals `0.7` and `0.95` are modelled as exact rationals.  Returns the
accepted child as `(content, critique)` (both stripped), or `none` when the
candidate is rejected. -/
def create_child (parentContent : String) (critique newContent : Option String) :
    Option (String × String) :=
  match critique with
  | none => none
  | some cr =>
    if py_len (py_strip cr) < 10 then none
    else
      match newContent with
      | none => none
      | some nc0 =>
        if py_len (py_strip nc0) < 50 then none
        else
          let nc := py_strip nc0
          if (py_len nc : ℚ) < (py_len parentContent : ℚ) * 0.7 then none
          else if similarity parentContent nc > 0.95 then none
          else some (nc, py_strip cr)

/-- Number of completion-service calls `_create_child` makes before returning:
one for the critique, plus one for the rewrite when the critique was usable. -/
def create_child_calls (critique : Option String) : ℕ :=
  match critique with
  | none => 1
  | some cr => if py_len (py_strip cr) < 10 then 1 else 2

/-- The `min(10.0, max(1.0, val))` clamp applied to every directly matched
metric score in `_parse_dynamic_scores`. -/
def clamp_score (v : ℚ) : ℚ := min 10 (max 1 v)

/-- First-match association-list lookup; models a Python dict whose insertion
order is the list order. -/
def alookup {α : Type} : List (String × α) → String → Option α
  | [], _ => none
  | (k, v) :: rest, m => if k = m then some v else alookup rest m

/-- `Tools._parse_dynamic_scores`.  The per-metric regex search over the free
text response is abstracted into `direct` (the number found for a metric by
the exact or underscore/space-tolerant pattern, if any) and `bare` (all bare
numbers `re.findall` extracts from the response); the claims about this
function concern what is done with those numbers, which is modelled exactly:
direct matches are clamped into `[1,10]`; if fewer than half the metrics are
recovered, bare numbers in `[1,10]` are averaged and assigned to every
missing metric; finally any still-missing metric receives the average of the
recovered scores, and an empty result is reported as `none`. -/
def parse_dynamic_scores (metrics : List String) (direct : String → Option ℚ)
    (bare : List ℚ) : Option (List (String × ℚ)) :=
  let scores1 := metrics.filterMap (fun m => (direct m).map (fun v => (m, clamp_score v)))
  let scores2 :=
    if (scores1.length : ℚ) < (metrics.length : ℚ) / 2 then
      let nums := bare.filter (fun n => decide (1 ≤ n ∧ n ≤ 10))
      if nums = [] then scores1
      else
        let avg := nums.sum / (nums.length : ℚ)
        scores1 ++ (metrics.filter (fun m => (alookup scores1 m).isNone)).map (fun m => (m, avg))
    else scores1
  if scores2 = [] then none
  else
    let avg := (scores2.map Prod.snd).sum / (scores2.length : ℚ)
    some (scores2 ++ (metrics.filter (fun m => (alookup scores2 m).isNone)).map (fun m => (m, avg)))

/-- `Tools._evaluate_node`, scoring part: the evaluation response is parsed
with `parse_dynamic_scores`; a failed call (`resp = none`) or an unparseable
response degrades to the default score `1.0` for every metric. -/
def evaluate_node_scores (metrics : List String)
    (resp : Option ((String → Option ℚ) × List ℚ)) : List (String × ℚ) :=
  match resp with
  | none => metrics.map (fun m => (m, 1))
  | some (direct, bare) =>
    match parse_dynamic_scores metrics direct bare with
    | some scores => scores
    | none => metrics.map (fun m => (m, 1))

/-- The `STRICTNESS_GUIDES` table: scoring-band description per preset. -/
def STRICTNESS_GUIDES : List (String × String) :=
  [("relaxed", "- 1-3: Major problems\n- 4-5: Needs work\n- 6-7: Acceptable\n- 8-9: Good (most decent content lands here)\n- 10: Great"),
   ("normal", "- 1-3: Poor - Major issues, fails to meet the criterion\n- 4-5: Below Average - Significant gaps\n- 6-7: Good - Meets expectations with room for improvement\n- 8-9: Very Good - Exceeds expectations\n- 10: Excellent - Exceptional, couldn\x27t be better"),
   ("strict", "- 1-3: Fails completely\n- 4-5: Below average - Most content is here\n- 6-7: Good - Actually meets the bar (don\x27t give this easily)\n- 8-9: Very Good - RARE. Requires excellence with minor gaps\n- 10: Perfect - Almost never give this"),
   ("brutal", "- 1-3: Garbage, unusable\n- 4-5: Mediocre - This is where MOST content belongs\n- 6-7: Actually good - Requires clear evidence of quality\n- 8: Excellent - RARE. Near-professional quality\n- 9: Exceptional - Almost never give this\n- 10: NEVER give a 10 unless it\x27s truly flawless")]

/-- The `STRICTNESS_PERSONAS` table: evaluator persona per preset. -/
def STRICTNESS_PERSONAS : List (String × String) :=
  [("relaxed", "supportive and encouraging"),
   ("normal", "fair and balanced"),
   ("strict", "critical and demanding"),
   ("brutal", "ruthlessly critical (your reputation depends on finding flaws)")]

/-- Strictness resolution in `_evaluate_node`: a configured value that is not
a key of `STRICTNESS_GUIDES` silently falls back to `"strict"`. -/
def resolve_strictness (s : String) : String :=
  if (alookup STRICTNESS_GUIDES s).isSome then s else "strict"

/-- The scoring guide actually consulted by `_evaluate_node`. -/
def scoring_guide_used (s : String) : String :=
  (alookup STRICTNESS_GUIDES (resolve_strictness s)).getD ""

/-- The evaluator persona actually consulted by `_evaluate_node`. -/
def persona_used (s : String) : String :=
  (alookup STRICTNESS_PERSONAS (resolve_strictness s)).getD ""

/-- The mutable per-node dictionary built by `Tools._create_node`: id,
content, visit/value statistics, critique, optional scores mapping and the
iteration of creation.  The `parent`/`children` links live in the tree
structure `MTree` below. -/
structure NodeData where
  nid : ℕ
  content : String
  visits : ℕ
  value : ℚ
  critique : String
  scores : Option (List (String × ℚ))
  iterCreated : ℕ
deriving DecidableEq

/-- The search tree: one node dictionary plus its ordered children. -/
inductive MTree where
  | node (data : NodeData) (children : List MTree)

/-- Data of the tree root. -/
def MTree.data : MTree → NodeData
  | .node d _ => d

/-- Children of the tree root. -/
def MTree.children : MTree → List MTree
  | .node _ cs => cs

/-- `Tools._create_node` (the caller increments the node counter first and
uses `counter + 1` as the id). -/
def create_node (counter : ℕ) (content : String) : NodeData :=
  { nid := counter + 1, content := content, visits := 0, value := 0,
    critique := "", scores := none, iterCreated := 0 }

/-- Replace the element at one position of a list, leaving the list unchanged
when the index is out of range. -/
def list_modify (f : α → α) : ℕ → List α → List α
  | _, [] => []
  | 0, a :: as => f a :: as
  | n + 1, a :: as => a :: list_modify f n as

/-- Subtree at a path of child indices (`some` exactly when the path is
valid in the tree). -/
def get_sub : MTree → List ℕ → Option MTree
  | t, [] => some t
  | t, i :: p =>
    match t.children[i]? with
    | some c => get_sub c p
    | none => none

/-- Node dictionary at a path. -/
def get_at (t : MTree) (p : List ℕ) : Option NodeData :=
  (get_sub t p).map MTree.data

/-- Overwrite the `scores` entry of the node at a path, as the assignments
`node["scores"] = scores` in `_run_mcts` do. -/
def set_scores (sc : List (String × ℚ)) : MTree → List ℕ → MTree
  | .node d cs, [] => .node { d with scores := some sc } cs
  | .node d cs, i :: p => .node d (list_modify (fun c => set_scores sc c p) i cs)

/-- Append freshly created children to the node at a path;
models the `_add_child` calls performed by `_expand` for every valid
candidate. -/
def add_children (ks : List MTree) : MTree → List ℕ → MTree
  | .node d cs, [] => .node d (cs ++ ks)
  | .node d cs, i :: p => .node d (list_modify (fun c => add_children ks c p) i cs)

/-- `Tools._backprop`: starting from the node at the path, add the score to
`value` and increment `visits` for the node and every ancestor up to the
root.  The Python loop walks parent pointers upward; here the same set of
nodes is exactly the chain of prefixes of the path, updated root-down. -/
def backprop (s : ℚ) : MTree → List ℕ → MTree
  | .node d cs, [] =>
    .node { d with visits := d.visits + 1, value := d.value + s } cs
  | .node d cs, i :: p =>
    .node { d with visits := d.visits + 1, value := d.value + s }
      (list_modify (fun c => backprop s c p) i cs)

mutual

/-- `Tools._get_max_depth`: depth of the deepest node below the root. -/
def max_depth : MTree → ℕ
  | .node _ cs => max_depth_list cs

/-- Maximum over a list of children of one plus the child depth. -/
def max_depth_list : List MTree → ℕ
  | [] => 0
  | c :: cs => max (max_depth c + 1) (max_depth_list cs)

end

mutual

/-- `Tools._count_nodes`: total number of nodes in the tree. -/
def count_nodes : MTree → ℕ
  | .node _ cs => 1 + count_nodes_list cs

/-- Total node count of a list of subtrees. -/
def count_nodes_list : List MTree → ℕ
  | [] => 0
  | c :: cs => count_nodes c + count_nodes_list cs

end

/-- `Tools._avg_score`: mean accumulated value, `0.0` for an unvisited node. -/
def avg_score (d : NodeData) : ℚ :=
  if d.visits > 0 then d.value / (d.visits : ℚ) else 0

/-- `Tools._fully_expanded`: children count has reached `max_children`. -/
def fully_expanded (maxChildren : ℕ) (t : MTree) : Bool :=
  t.children.length ≥ maxChildren

/-- `Tools._get_total_score`: the arithmetic mean over the run metrics of the
node scores (missing metrics default to `1.0`); a falsy scores mapping
(absent or empty) scores `1.0`. -/
def get_total_score (metrics : List String) (scores : Option (List (String × ℚ))) : ℚ :=
  match scores with
  | none => 1
  | some l =>
    if l = [] then 1
    else if metrics = [] then 1
    else (metrics.map (fun m => (alookup l m).getD 1)).sum / (metrics.length : ℚ)

/-- `Tools._get_weakest_metric`: the first metric (in dictionary insertion
order) attaining the minimal score, restricted to the run metrics; falls back
to the first metric when the mapping is falsy.  (When both the mapping and
the metric list are empty the source would raise on `metrics[0]`; that
situation is unreachable because a run always has at least three metrics, and
is modelled with the `"UNKNOWN"` default the source uses for its first
fallback.) -/
def get_weakest_metric (metrics : List String) (scores : Option (List (String × ℚ))) : String :=
  match scores with
  | none => metrics.headD "UNKNOWN"
  | some l =>
    if l = [] then metrics.headD "UNKNOWN"
    else
      match l.filter (fun p => metrics.contains p.1) with
      | [] => metrics.headD "UNKNOWN"
      | p :: rest => (rest.foldl (fun best q => if q.2 < best.2 then q else best) p).1

/-- `Tools._get_node_depth`: distance from the root obtained by walking the
parent pointers; in the path addressing of `MTree` the walked chain is the
path itself, so the depth is its length. -/
def get_node_depth (p : List ℕ) : ℕ := p.length

/-- The configurable valves of the tool that the modelled code paths read
(floats again as exact rationals). -/
structure Valves where
  api_key : String
  max_simulations : ℕ
  max_children : ℕ
  num_thoughts : ℕ
  exploration_weight : ℚ
  early_stop_patience : ℕ
  early_stop_threshold : ℚ
  max_retries : ℕ
  grading_strictness : String
  comparative_eval : Bool
  min_depth : ℕ
  depth_bonus : ℚ

/-- Result type of `Tools._uct_value`: either the float `inf` returned for an
unvisited node, or a finite real value. -/
inductive UctVal where
  | inf
  | val (x : ℝ)

/-- `Tools._uct_value` for the node at a path: `inf` when unvisited; bare
exploitation when the node is the root (no parent) or the parent is
unvisited; otherwise exploitation plus the exploration term plus the
asymptotic depth bonus.  (The guard case of an invalid path does not arise in
the source, where the function receives an existing node object.) -/
noncomputable def uct_value (vl : Valves) (t : MTree) (p : List ℕ) : UctVal :=
  match get_at t p with
  | none => .val 0
  | some d =>
    if d.visits = 0 then .inf
    else
      match p with
      | [] => .val ((d.value : ℝ) / (d.visits : ℝ))
      | _ :: _ =>
        match get_at t p.dropLast with
        | none => .val ((d.value : ℝ) / (d.visits : ℝ))
        | some pd =>
          if pd.visits = 0 then .val ((d.value : ℝ) / (d.visits : ℝ))
          else .val ((d.value : ℝ) / (d.visits : ℝ)
            + (vl.exploration_weight : ℝ)
              * Real.sqrt (Real.log ((pd.visits : ℝ) + 1) / (d.visits : ℝ))
            + (vl.depth_bonus : ℝ)
              * ((get_node_depth p : ℝ) / ((get_node_depth p : ℝ) + 2)))

/-- One HTTP response of the completion service as `_llm_call_raw` observes
it: the status code, the (truncated) body text used for error reporting, and
the content the chain of response-shape extractors recovers on a 200 body
(`none` when no extractor finds a truthy content field). -/
structure RawResponse where
  status : ℕ
  body : String
  extracted : Option String

/-- Outcome of one `_llm_call_raw` invocation: a raised exception (the
`aiohttp.ClientError` for a retryable status, carrying the recorded error
message), or a returned value (`none` for a terminal parse/status failure,
`some s` for extracted content, already stripped). -/
inductive RawOutcome where
  | raised (msg : String)
  | value (r : Option String)
deriving DecidableEq

/-- The first 200 code points of a string, as the `text[:200]` truncation in
the error message. -/
def take200 (s : String) : String := ⟨s.data.take 200⟩

/-- `Tools._llm_call_raw` on one response: a non-200 status in
`{429, 500, 502, 503}` raises; any other non-200 status returns `None`; a
200 response returns the stripped extracted content, or `None` when no
response shape matched. -/
def llm_call_raw (r : RawResponse) : RawOutcome :=
  if r.status ≠ 200 then
    if r.status = 429 ∨ r.status = 500 ∨ r.status = 502 ∨ r.status = 503 then
      .raised ("API " ++ toString r.status ++ ": " ++ take200 r.body)
    else .value none
  else
    match r.extracted with
    | some c => .value (some (py_strip c))
    | none => .value none

/-- The successful result `_llm_call` accepts from one raw call: a returned
string that is still truthy (non-empty) after stripping. -/
def raw_success (r : RawResponse) : Option String :=
  match llm_call_raw r with
  | .value (some s) => if s = "" then none else some s
  | _ => none

/-- `Tools._llm_call`, retry loop, fuelled by the remaining attempts
(`fuel = maxRetries - attempt` on entry).  `resp` gives the response of each
attempt and `jit` the sampled `random.uniform(0, 1)` jitter.  Returns the
final result, the number of raw calls performed from this attempt on, and
the list of back-off sleeps taken (in seconds). -/
def llm_call_aux (resp : ℕ → RawResponse) (jit : ℕ → ℚ) (maxR : ℕ) :
    ℕ → ℕ → Option String × ℕ × List ℚ
  | 0, _ => (none, 0, [])
  | fuel + 1, a =>
    match raw_success (resp a) with
    | some s => (some s, 1, [])
    | none =>
      if a < maxR - 1 then
        match llm_call_aux resp jit maxR fuel (a + 1) with
        | (r, n, sl) => (r, n + 1, ((2 : ℚ) ^ a + jit a) :: sl)
      else (none, 1, [])

/-- `Tools._llm_call`: up to `max_retries` attempts, with a sleep of
`2 ** attempt + random.uniform(0, 1)` seconds after every failed attempt
except the last.  A failed attempt is either a raised retryable-status
exception, a `None` return (any other non-200 status, or an unparseable 200
body), or an empty stripped content — the loop retries all of them alike. -/
def llm_call (resp : ℕ → RawResponse) (jit : ℕ → ℚ) (maxR : ℕ) :
    Option String × ℕ × List ℚ :=
  llm_call_aux resp jit maxR maxR 0

/-- `Tools._test_api`: one raw call of the probe prompt; an exception or a
falsy result means failure. -/
def test_api (r : RawResponse) : Bool :=
  match llm_call_raw r with
  | .raised _ => false
  | .value none => false
  | .value (some s) => s ≠ ""

/-- Completion-service behaviour of one `_run_mcts` run.  `evalResult` gives,
for the n-th evaluation call, the abstracted parse inputs of the response
(`none` for a failed call, degrading to default scores); `candidate` gives
the critique and rewrite returned for a given (iteration, attempt, thought
index); `pickIdx` resolves the `random.choice` among the valid candidates of
an iteration. -/
structure MctsOracle where
  evalResult : ℕ → Option ((String → Option ℚ) × List ℚ)
  candidate : ℕ → ℕ → ℕ → Option String × Option String
  pickIdx : ℕ → ℕ

/-- The loop state of `_run_mcts` (plus the node-id counter and API-call
tally the tool object carries): the tree, the best score, the path of the
best node, the no-improvement counter, the number of evaluation calls made
so far, and the `_best_score_history` entries `(iteration, score, node id)`. -/
structure MctsState where
  tree : MTree
  best_score : ℚ
  best_path : List ℕ
  no_improvement : ℕ
  eval_count : ℕ
  api_calls : ℕ
  node_counter : ℕ
  hist : List (ℕ × ℚ × ℕ)

/-- Which of the three bodies of the per-iteration `if`/`else` ran. -/
inductive IterBranch where
  | expandedNew
  | expandFailed
  | simulated
deriving DecidableEq

/-- Observables of one iteration: the selected leaf and the branch taken. -/
structure IterInfo where
  leafPath : List ℕ
  branch : IterBranch

/-- One `_create_child` task: its accepted candidate (if any) and the number
of completion-service calls it made. -/
def gen_candidate (parentContent : String) (cand : Option String × Option String) :
    Option (String × String) × ℕ :=
  (create_child parentContent cand.1 cand.2, create_child_calls cand.1)

/-- One attempt of `_expand`: `num_thoughts` concurrent `_create_child`
tasks; returns the valid candidates in task order and the total calls. -/
def expand_attempt (o : MctsOracle) (numThoughts iter att : ℕ) (parentContent : String) :
    List (String × String) × ℕ :=
  let results := (List.range numThoughts).map
    (fun k => gen_candidate parentContent (o.candidate iter att k))
  (results.filterMap Prod.fst, (results.map Prod.snd).sum)

/-- `Tools._expand`: up to two attempts; on the first attempt with valid
candidates they are all attached and one is chosen at random (`pickIdx`
modulo the candidate count); two empty attempts give up. -/
def expand_res (o : MctsOracle) (numThoughts iter : ℕ) (parentContent : String) :
    Option (List (String × String) × ℕ) × ℕ :=
  let r0 := expand_attempt o numThoughts iter 0 parentContent
  if r0.1 ≠ [] then (some (r0.1, o.pickIdx iter % r0.1.length), r0.2)
  else
    let r1 := expand_attempt o numThoughts iter 1 parentContent
    if r1.1 ≠ [] then (some (r1.1, o.pickIdx iter % r1.1.length), r0.2 + r1.2)
    else (none, r0.2 + r1.2)

/-- Fresh child nodes for the accepted candidates `(content, critique)`,
with sequentially assigned ids as `_create_node` does. -/
def make_children (counter iter : ℕ) : List (String × String) → List MTree
  | [] => []
  | (content, cr) :: rest =>
    MTree.node { create_node counter content with critique := cr, iterCreated := iter } []
      :: make_children (counter + 1) iter rest

/-- One iteration of the `_run_mcts` main loop (select / expand / evaluate /
backpropagate / best tracking).  The selection step is supplied as an
abstract function `sel` — the source selects by descending along maximal
UCT, a real-valued computation; every theorem below holds for all selection
outcomes, hence for the source's.  An invalid selected path (which `_select`
never produces) defaults to the root. -/
def mcts_iter (vl : Valves) (o : MctsOracle) (sel : MTree → List ℕ) (metrics : List String)
    (iter : ℕ) (st : MctsState) : MctsState × IterInfo :=
  let lp0 := sel st.tree
  let lp := if (get_sub st.tree lp0).isSome then lp0 else []
  let leafT := (get_sub st.tree lp).getD st.tree
  let leaf := leafT.data
  if 0 < leaf.visits ∧ ¬ fully_expanded vl.max_children leafT then
    match expand_res o vl.num_thoughts iter leaf.content with
    | (some (valid, pickLocal), xcalls) =>
      let kids := make_children st.node_counter iter valid
      let tree1 := add_children kids st.tree lp
      let childPath := lp ++ [leafT.children.length + pickLocal]
      let scs := evaluate_node_scores metrics (o.evalResult st.eval_count)
      let tree2 := set_scores scs tree1 childPath
      let score := get_total_score metrics (some scs)
      let tree3 := backprop score tree2 childPath
      let childId := st.node_counter + 1 + pickLocal
      if st.best_score < score then
        ({ tree := tree3, best_score := score, best_path := childPath,
           no_improvement := 0, eval_count := st.eval_count + 1,
           api_calls := st.api_calls + xcalls + 1,
           node_counter := st.node_counter + valid.length,
           hist := st.hist ++ [(iter, score, childId)] },
         { leafPath := lp, branch := .expandedNew })
      else
        ({ tree := tree3, best_score := st.best_score, best_path := st.best_path,
           no_improvement := st.no_improvement + 1, eval_count := st.eval_count + 1,
           api_calls := st.api_calls + xcalls + 1,
           node_counter := st.node_counter + valid.length, hist := st.hist },
         { leafPath := lp, branch := .expandedNew })
    | (none, xcalls) =>
      let scs := evaluate_node_scores metrics (o.evalResult st.eval_count)
      let tree2 := set_scores scs st.tree lp
      let score := get_total_score metrics (some scs)
      let tree3 := backprop score tree2 lp
      ({ st with
         tree := tree3
         no_improvement := st.no_improvement + 1
         eval_count := st.eval_count + 1
         api_calls := st.api_calls + xcalls + 1 },
       { leafPath := lp, branch := .expandFailed })
  else
    if leaf.scores = none ∨ leaf.scores = some [] then
      let scs := evaluate_node_scores metrics (o.evalResult st.eval_count)
      let tree2 := set_scores scs st.tree lp
      let score := get_total_score metrics (some scs)
      let tree3 := backprop score tree2 lp
      ({ st with
         tree := tree3
         no_improvement := st.no_improvement + 1
         eval_count := st.eval_count + 1
         api_calls := st.api_calls + 1 },
       { leafPath := lp, branch := .simulated })
    else
      let score := get_total_score metrics leaf.scores
      let tree3 := backprop score st.tree lp
      ({ st with tree := tree3, no_improvement := st.no_improvement + 1 },
       { leafPath := lp, branch := .simulated })

/-- How `_run_mcts` returned: the pre-loop "content already excellent"
return, one of the two in-loop early-stop breaks, or normal exhaustion of
`max_simulations` iterations. -/
inductive MctsExit where
  | initialExcellent
  | hitThreshold
  | converged
  | exhausted
deriving DecidableEq

/-- Result of a `_run_mcts` run: final state, how it returned, and how many
loop iterations ran. -/
structure MctsResult where
  state : MctsState
  exit : MctsExit
  iters : ℕ

/-- The pre-loop phase of `_run_mcts`: create the root, evaluate it, store
its scores and backpropagate its score once, and seed the best-score
history. -/
def mcts_init (metrics : List String) (o : MctsOracle) (rootContent : String) : MctsState :=
  let rootData := create_node 0 rootContent
  let scs := evaluate_node_scores metrics (o.evalResult 0)
  let initScore := get_total_score metrics (some scs)
  let t1 := set_scores scs (MTree.node rootData []) []
  let t2 := backprop initScore t1 []
  { tree := t2, best_score := initScore, best_path := [], no_improvement := 0,
    eval_count := 1, api_calls := 1, node_counter := 1,
    hist := [(0, initScore, rootData.nid)] }

/-- The `for i in range(max_simulations)` loop of `_run_mcts`, with its two
depth-gated early-stop breaks checked after each iteration. -/
def run_loop (vl : Valves) (o : MctsOracle) (sel : MTree → List ℕ) (metrics : List String) :
    ℕ → ℕ → MctsState → MctsResult
  | 0, iter, st => ⟨st, .exhausted, iter - 1⟩
  | fuel + 1, iter, st =>
    let st' := (mcts_iter vl o sel metrics iter st).1
    let d := max_depth st'.tree
    if vl.early_stop_threshold ≤ st'.best_score ∧ vl.min_depth ≤ d then
      ⟨st', .hitThreshold, iter⟩
    else if vl.early_stop_patience ≤ st'.no_improvement ∧ vl.min_depth ≤ d then
      ⟨st', .converged, iter⟩
    else run_loop vl o sel metrics fuel (iter + 1) st'

/-- `Tools._run_mcts`: evaluate the root; if its score already meets
`early_stop_threshold`, skip the search entirely (no depth condition);
otherwise run the main loop. -/
def run_mcts (vl : Valves) (o : MctsOracle) (sel : MTree → List ℕ) (metrics : List String)
    (rootContent : String) : MctsResult :=
  let st := mcts_init metrics o rootContent
  if vl.early_stop_threshold ≤ st.best_score then ⟨st, .initialExcellent, 0⟩
  else run_loop vl o sel metrics vl.max_simulations 1 st

/-- Python `s.upper()` (ASCII case mapping). -/
def py_upper (s : String) : String := ⟨s.data.map Char.toUpper⟩

/-- Python `s.replace(" ", "_")`. -/
def underscore_spaces (s : String) : String :=
  ⟨s.data.map (fun c => if c = ' ' then '_' else c)⟩

/-- Metric-name normalisation in `_generate_metrics`:
`parts[0].strip().upper().replace(" ", "_")`. -/
def normalize_metric (s : String) : String := underscore_spaces (py_upper (py_strip s))

/-- Python `line.split(":", 1)` for a line known to contain a colon. -/
def split_first_colon (s : String) : String × String :=
  match s.splitOn ":" with
  | [] => (s, "")
  | a :: rest => (a, String.intercalate ":" rest)

/-- The fixed default metric set `_generate_metrics` falls back to when
fewer than three lines of the response parse. -/
def DEFAULT_METRICS : List (String × String) :=
  [("COMPLETENESS", "Covers all aspects of the goal"),
   ("CLARITY", "Easy to understand and well-structured"),
   ("DEPTH", "Sufficient detail and examples"),
   ("ACCURACY", "Correct and well-reasoned"),
   ("ENGAGEMENT", "Interesting and appropriate tone")]

/-- `Tools._generate_metrics` on the metric-generation response (`none` for
a failed call): split into stripped lines containing a colon; fewer than
three such lines fall back to the default metric set; otherwise the first
five lines are parsed into `(normalised name, description)` pairs.  Returns
the metric-name list and the name→description mapping, or `none` when the
whole call failed (which fails the run). -/
def generate_metrics (resp : Option String) : Option (List String × List (String × String)) :=
  match resp with
  | none => none
  | some result =>
    if result = "" then none
    else
      let ls := (((py_strip result).splitOn "\n").map py_strip).filter
        (fun l => decide (l ≠ "") && l.contains ':')
      if ls.length < 3 then some (DEFAULT_METRICS.map Prod.fst, DEFAULT_METRICS)
      else
        let parsed := (ls.take 5).map (fun l =>
          let pr := split_first_colon l
          (normalize_metric pr.1, py_strip pr.2))
        if parsed.length < 3 then none
        else some (parsed.map Prod.fst, parsed)

/-- `Tools._infer_goal` on the goal-inference response: a result whose strip
is longer than ten characters is adopted, anything else yields `none` (the
caller then falls back to the generic default goal). -/
def infer_goal (resp : Option String) : Option String :=
  match resp with
  | none => none
  | some r => if 10 < py_len (py_strip r) then some (py_strip r) else none

/-- The generic default goal used when inference fails. -/
def DEFAULT_GOAL : String :=
  "Make this content clearer, more comprehensive, and more effective for its intended purpose"

/-- A character repeated `n` times (Python `ch * n`, empty for a
non-positive count). -/
def rep_char (c : Char) (n : ℕ) : String := ⟨List.replicate n c⟩

/-- Python `s.replace("_", " ")`. -/
def replace_underscores (s : String) : String :=
  ⟨s.data.map (fun c => if c = '_' then ' ' else c)⟩

/-- Helper for `py_title`: the flag records whether the previous character
was alphabetic. -/
def title_go : Bool → List Char → List Char
  | _, [] => []
  | prevAlpha, c :: cs =>
    (if c.isAlpha then (if prevAlpha then c.toLower else c.toUpper) else c)
      :: title_go c.isAlpha cs

/-- Python `s.title()`: first letter of every alphabetic run upper-cased,
the rest lower-cased (ASCII approximation). -/
def py_title (s : String) : String := ⟨title_go false s.data⟩

/-- The display label of a metric: `m.replace('_', ' ').title()`. -/
def metric_label (m : String) : String := py_title (replace_underscores m)

/-- Python `int(q)` for the non-negative scores appearing in score bars. -/
def py_int (q : ℚ) : ℕ := q.floor.toNat

/-- The `"█" * int(s) + "░" * (10 - int(s))` progress bar. -/
def score_bar (s : ℚ) : String :=
  rep_char '█' (py_int s) ++ rep_char '░' (10 - py_int s)

/-- One-decimal rendering of a rational, modelling Python `f"{x:.1f}"` and
`str(round(x, 1))` (the discrepancy between binary-float half-even rounding
and rational half-up rounding is immaterial to every property proved here). -/
def fmt1 (q : ℚ) : String :=
  let m : ℤ := round (q * 10)
  (if m < 0 then "-" else "") ++ toString (m.natAbs / 10) ++ "." ++ toString (m.natAbs % 10)

/-- `Tools._format_metrics_display`: the numbered metric list. -/
def format_metrics_display (md : List (String × String)) : String :=
  String.intercalate "\n" (md.enum.map (fun p =>
    toString (p.1 + 1) ++ ". **" ++ metric_label p.2.1 ++ "**: " ++ p.2.2))

/-- Node id rendered as `_create_node` renders it: `f"n{counter}"`. -/
def node_id_str (d : NodeData) : String := "n" ++ toString d.nid

/-- The first `n` code points of a string (Python `s[:n]`). -/
def py_take (n : ℕ) (s : String) : String := ⟨s.data.take n⟩

mutual

/-- `Tools._mermaid_node`: the node line, its style line, and the rendering
of its children with score-delta edge labels. -/
def mermaid_node (metrics : List String) (selected : String) : MTree → List String
  | .node d cs =>
    let nid := node_id_str d
    let score := (round (avg_score d * 10) : ℚ) / 10
    let weak := match d.scores with
      | none => ""
      | some l => if l = [] then "" else py_take 4 (get_weakest_metric metrics (some l))
    let nodeLine := "    " ++ nid ++ "[\"" ++ nid ++ "<br/>s:" ++ fmt1 score
      ++ " v:" ++ toString d.visits ++ "<br/>" ++ weak ++ "\"]"
    let styleLine :=
      if nid = selected then "    style " ++ nid ++ " stroke:#00ff00,stroke-width:4px"
      else if 8 ≤ score then "    style " ++ nid ++ " fill:#90EE90,stroke:#228B22"
      else if 6 ≤ score then "    style " ++ nid ++ " fill:#FFE4B5,stroke:#DDA000"
      else if 4 ≤ score then "    style " ++ nid ++ " fill:#FFB6C1,stroke:#DC143C"
      else "    style " ++ nid ++ " fill:#FF6B6B,stroke:#8B0000"
    [nodeLine, styleLine] ++ mermaid_children metrics selected nid (avg_score d) cs

/-- Rendering of a child list, appending one `-->` edge per child. -/
def mermaid_children (metrics : List String) (selected nid : String) (pscore : ℚ) :
    List MTree → List String
  | [] => []
  | c :: cs =>
    let diff := avg_score c.data - pscore
    let diffStr := (if 0 < diff then "+" else "") ++ fmt1 diff
    mermaid_node metrics selected c
      ++ ["    " ++ nid ++ " -->|" ++ diffStr ++ "| " ++ node_id_str c.data]
      ++ mermaid_children metrics selected nid pscore cs

end

/-- `Tools._generate_mermaid`: the fenced `mermaid` graph of the tree. -/
def generate_mermaid (metrics : List String) (root : MTree) (selected : String) : String :=
  String.intercalate "\n" (["```mermaid", "graph TD"]
    ++ mermaid_node metrics selected root ++ ["```"])

/-- The node dictionaries along a root path, root first; the Python code
builds the same list by walking parent pointers from the node and
reversing. -/
def nodes_along : MTree → List ℕ → List NodeData
  | t, [] => [t.data]
  | t, i :: p =>
    t.data :: (match t.children[i]? with
      | some c => nodes_along c p
      | none => [])

/-- `Tools._get_improvement_path`: the rendered root-to-best trajectory. -/
def get_improvement_path (metrics : List String) (nds : List NodeData) : String :=
  match nds with
  | [] => ""
  | d :: rest =>
    let critLine := fun (d : NodeData) =>
      py_take 100 (if d.critique = "" then "(root)" else d.critique)
    String.intercalate "\n"
      (["⚑ **" ++ node_id_str d ++ "** (initial) - Score: "
          ++ fmt1 (get_total_score metrics d.scores) ++ "/10"]
        ++ (rest.map (fun d =>
            ["→ **" ++ node_id_str d ++ "** (iter " ++ toString d.iterCreated
               ++ ") - Score: " ++ fmt1 (get_total_score metrics d.scores) ++ "/10",
             "   *Critique: " ++ critLine d ++ "*"])).flatten)

/-- `Tools._format_final_output`: the success report.  It always begins with
the fixed "Optimization Complete" header. -/
def format_final_output (metrics : List String) (md : List (String × String))
    (goal : String) (root : MTree) (bestPath : List ℕ)
    (apiCalls : ℕ) : String :=
  let best := (get_at root bestPath).getD root.data
  let scores := best.scores
  let total := get_total_score metrics scores
  let scoresTable := String.intercalate "\n" (metrics.map (fun m =>
    let s := (scores.bind (fun l => alookup l m)).getD 0
    "| " ++ metric_label m ++ " | " ++ score_bar s ++ " | **" ++ fmt1 s ++ "** | "
      ++ py_take 50 ((alookup md m).getD "") ++ " |"))
  let rootScore := get_total_score metrics root.data.scores
  let improvement := total - rootScore
  let improvementStr := (if 0 < improvement then "+" else "") ++ fmt1 improvement
  "\n---\n\n## ✨ Optimization Complete!\n\n### 🎯 Goal\n" ++ goal
    ++ "\n\n### 📊 Final Scores\n\n| Metric | Progress | Score | Description |\n|--------|----------|-------|-------------|\n"
    ++ scoresTable
    ++ "\n\n**Overall Score: " ++ fmt1 total ++ "/10** (" ++ improvementStr
    ++ " improvement)\n\n### 📈 Stats\n- **Nodes explored:** " ++ toString (count_nodes root)
    ++ "\n- **API calls:** " ++ toString apiCalls
    ++ "\n- **Starting score:** " ++ fmt1 rootScore
    ++ "/10\n- **Final score:** " ++ fmt1 total
    ++ "/10\n\n---\n\n## 📝 Optimized Content\n\n" ++ best.content
    ++ "\n\n---\n\n<details>\n<summary>🌳 Final Search Tree</summary>\n\n"
    ++ generate_mermaid metrics root (node_id_str best)
    ++ "\n\n</details>\n\n<details>\n<summary>📈 Improvement Path</summary>\n\n"
    ++ get_improvement_path metrics (nodes_along root bestPath)
    ++ "\n\n</details>\n\n<details>\n<summary>🎯 Metrics Used</summary>\n\n"
    ++ format_metrics_display md
    ++ "\n\n</details>\n"

/-- The error detail `_llm_call_raw` records for a response it does not
accept (the JSON repr in the unknown-shape message is abstracted by the
body text). -/
def raw_error_msg (r : RawResponse) : String :=
  if r.status ≠ 200 then "API " ++ toString r.status ++ ": " ++ take200 r.body
  else "Unknown response: " ++ take200 r.body

/-- The `_last_error` visible after a failed `_test_api`, rendered into the
"API Error" message (`none` renders as Python prints `None`). -/
def test_api_error (r : RawResponse) : Option String :=
  match llm_call_raw r with
  | .raised m => some m
  | .value none => some (raw_error_msg r)
  | .value (some _) => none

/-- Completion-service behaviour of one whole `improve_content` invocation.
Each field is the outcome of one logical `_llm_call`/`_llm_call_raw` site
(the retry loop around individual calls is modelled separately by
`llm_call`); `metricsErr` is the `_last_error` detail reported when metric
generation fails. -/
structure ImproveOracle where
  testResp : RawResponse
  goalResp : Option String
  metricsResp : Option String
  metricsErr : Option String
  mcts : MctsOracle
  sel : MTree → List ℕ

/-- `Tools.improve_content`, the top-level entry point: validation, API
probe, goal selection/inference with its generic fallback, metric
generation, the MCTS run, and final formatting.  Every completion-service
failure is a value of the oracle, handled to an error string; the
`except` block around `_run_mcts` is unreachable under completion-service
failures alone (every service call inside the loop already degrades to a
value), so the model needs no branch for it.  Status/message emitters are a
side channel with no control-flow effect and are not modelled. -/
def improve_content (vl : Valves) (o : ImproveOracle) (text goal : String) : String :=
  if vl.api_key = "" then "⚠️ **Error:** API Key required in Valves settings."
  else if py_strip text = "" then "⚠️ **Error:** No text provided to improve."
  else
    let text := py_strip text
    if ¬ test_api o.testResp then
      "⚠️ **API Error:** " ++ (test_api_error o.testResp).getD "None"
    else
      let goal := if py_strip goal ≠ "" then py_strip goal
        else (infer_goal o.goalResp).getD DEFAULT_GOAL
      match generate_metrics o.metricsResp with
      | none =>
        "⚠️ **Error:** Could not generate evaluation metrics.\n\nDetails: "
          ++ o.metricsErr.getD "None"
      | some (metrics, md) =>
        let res := run_mcts vl o.mcts o.sel metrics text
        format_final_output metrics md goal res.state.tree res.state.best_path
          res.state.api_calls

/-! General lemmas about the tree operations. -/

theorem list_modify_get_self (f : α → α) :
    ∀ (l : List α) (i : ℕ), (list_modify f i l)[i]? = (l[i]?).map f
  | [], i => by cases i <;> simp [list_modify]
  | _ :: _, 0 => by simp [list_modify]
  | _ :: as, i + 1 => by simpa [list_modify] using list_modify_get_self f as i

theorem list_modify_get_ne (f : α → α) :
    ∀ (l : List α) (i j : ℕ), j ≠ i → (list_modify f i l)[j]? = l[j]?
  | [], i, j, _ => by cases j <;> simp [list_modify]
  | _ :: _, 0, 0, h => absurd rfl h
  | _ :: _, 0, j + 1, _ => by simp [list_modify]
  | _ :: _, i + 1, 0, _ => by simp [list_modify]
  | _ :: as, i + 1, j + 1, h => by
    simpa [list_modify] using list_modify_get_ne f as i j (fun hji => h (by omega))

/-- The update `backprop` applies to one node dictionary on the path. -/
def bp_data (s : ℚ) (d : NodeData) : NodeData :=
  { d with visits := d.visits + 1, value := d.value + s }

theorem get_at_nil (t : MTree) : get_at t [] = some t.data := by
  cases t <;> rfl

theorem get_at_cons (t : MTree) (i : ℕ) (q : List ℕ) :
    get_at t (i :: q) = (t.children[i]?).bind (fun c => get_at c q) := by
  cases t with
  | node d cs =>
    simp only [get_at, get_sub, MTree.children]
    cases cs[i]? <;> rfl

theorem backprop_children (s : ℚ) (t : MTree) :
    (backprop s t []).children = t.children := by
  cases t <;> rfl

theorem get_at_backprop_on_path (s : ℚ) :
    ∀ (q p : List ℕ) (t : MTree) (d : NodeData), q <+: p → get_at t q = some d →
      get_at (backprop s t p) q = some (bp_data s d)
  | [], p, t, d, _, hd => by
    cases t with
    | node dd cs =>
      rw [get_at_nil] at hd
      cases p with
      | nil => rw [get_at_nil]; simp_all [backprop, MTree.data, bp_data]
      | cons i p' => rw [get_at_nil]; simp_all [backprop, MTree.data, bp_data]
  | j :: q', p, t, d, hq, hd => by
    cases p with
    | nil => simp at hq
    | cons i p' =>
      obtain ⟨hji, hq'⟩ := List.cons_prefix_cons.mp hq
      subst hji
      cases t with
      | node dd cs =>
        rw [get_at_cons] at hd
        rw [backprop, get_at_cons]
        simp only [MTree.children] at hd ⊢
        rw [list_modify_get_self]
        cases hc : cs[j]? with
        | none => rw [hc] at hd; simp at hd
        | some c =>
          rw [hc] at hd
          simp only [Option.some_bind] at hd
          simpa using get_at_backprop_on_path s q' p' c d hq' hd

theorem get_at_backprop_off_path (s : ℚ) :
    ∀ (q p : List ℕ) (t : MTree), ¬ q <+: p →
      get_at (backprop s t p) q = get_at t q
  | [], p, t, hq => absurd (List.nil_prefix) hq
  | j :: q', [], t, _ => by
    cases t with
    | node dd cs =>
      rw [get_at_cons, get_at_cons]
      rfl
  | j :: q', i :: p', t, hq => by
    cases t with
    | node dd cs =>
      rw [get_at_cons, get_at_cons, backprop]
      simp only [MTree.children]
      by_cases hji : j = i
      · subst hji
        have hq' : ¬ q' <+: p' := fun h => hq (List.cons_prefix_cons.mpr ⟨rfl, h⟩)
        rw [list_modify_get_self]
        cases hc : cs[j]? with
        | none => rfl
        | some c => simpa using get_at_backprop_off_path s q' p' c hq'
      · rw [list_modify_get_ne _ _ _ _ hji]

theorem set_scores_children (sc : List (String × ℚ)) (t : MTree) :
    (set_scores sc t []).children = t.children := by
  cases t <;> rfl

theorem get_at_set_scores_self (sc : List (String × ℚ)) :
    ∀ (p : List ℕ) (t : MTree),
      get_at (set_scores sc t p) p = (get_at t p).map (fun d => { d with scores := some sc })
  | [], t => by cases t <;> simp [get_at_nil, set_scores, MTree.data]
  | i :: p', t => by
    cases t with
    | node dd cs =>
      rw [set_scores, get_at_cons, get_at_cons]
      simp only [MTree.children]
      rw [list_modify_get_self]
      cases hc : cs[i]? with
      | none => rfl
      | some c => simpa using get_at_set_scores_self sc p' c

theorem get_at_set_scores_ne (sc : List (String × ℚ)) :
    ∀ (q p : List ℕ) (t : MTree), q ≠ p →
      get_at (set_scores sc t p) q = get_at t q
  | [], p, t, hq => by
    cases p with
    | nil => exact absurd rfl hq
    | cons i p' =>
      cases t with
      | node dd cs =>
        rw [get_at_nil, set_scores, get_at_nil]
        rfl
  | j :: q', p, t, hq => by
    cases p with
    | nil =>
      cases t with
      | node dd cs =>
        rw [set_scores, get_at_cons, get_at_cons]
        rfl
    | cons i p' =>
      cases t with
      | node dd cs =>
        rw [set_scores, get_at_cons, get_at_cons]
        simp only [MTree.children]
        by_cases hji : j = i
        · subst hji
          have hq' : q' ≠ p' := fun h => hq (by rw [h])
          rw [list_modify_get_self]
          cases hc : cs[j]? with
          | none => rfl
          | some c => simpa using get_at_set_scores_ne sc q' p' c hq'
        · rw [list_modify_get_ne _ _ _ _ hji]

theorem get_at_add_children (ks : List MTree) :
    ∀ (q p : List ℕ) (t : MTree) (d : NodeData), get_at t q = some d →
      get_at (add_children ks t p) q = some d
  | [], p, t, d, hd => by
    cases t with
    | node dd cs =>
      cases p with
      | nil => rw [get_at_nil] at hd ⊢; exact hd
      | cons i p' => rw [get_at_nil] at hd ⊢; exact hd
  | j :: q', p, t, d, hd => by
    cases t with
    | node dd cs =>
      cases p with
      | nil =>
        rw [get_at_cons] at hd ⊢
        simp only [MTree.children, add_children] at hd ⊢
        cases hc : cs[j]? with
        | none => rw [hc] at hd; simp at hd
        | some c =>
          have : (cs ++ ks)[j]? = some c := by
            rw [List.getElem?_append_left (by
              cases Nat.lt_or_ge j cs.length with
              | inl h => exact h
              | inr h => rw [List.getElem?_eq_none h] at hc; cases hc)]
            exact hc
          rw [hc] at hd
          rw [this]
          exact hd
      | cons i p' =>
        rw [get_at_cons] at hd ⊢
        simp only [MTree.children, add_children] at hd ⊢
        by_cases hji : j = i
        · subst hji
          rw [list_modify_get_self]
          cases hc : cs[j]? with
          | none => rw [hc] at hd; simp at hd
          | some c =>
            rw [hc] at hd
            simp only [Option.some_bind] at hd
            simpa using get_at_add_children ks q' p' c d hd
        · rw [list_modify_get_ne _ _ _ _ hji]
          exact hd

theorem get_at_append_singleton_ge :
    ∀ (p : List ℕ) (t : MTree) (sub : MTree), get_sub t p = some sub →
      ∀ j, sub.children.length ≤ j → get_at t (p ++ [j]) = none
  | [], t, sub, hsub, j, hj => by
    rw [get_sub] at hsub
    injection hsub with h
    subst h
    rw [List.nil_append, get_at_cons, List.getElem?_eq_none hj]
    rfl
  | i :: p', t, sub, hsub, j, hj => by
    cases t with
    | node dd cs =>
      rw [get_sub] at hsub
      simp only [MTree.children] at hsub
      rw [List.cons_append, get_at_cons]
      simp only [MTree.children]
      cases hc : cs[i]? with
      | none => rw [hc] at hsub; cases hsub
      | some c =>
        rw [hc] at hsub
        simpa using get_at_append_singleton_ge p' c sub hsub j hj

theorem get_at_backprop_visits_mono (s : ℚ) (t : MTree) (p q : List ℕ) (d d' : NodeData)
    (hd : get_at t q = some d) (hd' : get_at (backprop s t p) q = some d') :
    d.visits ≤ d'.visits := by
  by_cases hq : q <+: p
  · rw [get_at_backprop_on_path s q p t d hq hd] at hd'
    injection hd' with h
    rw [← h]
    exact Nat.le_succ _
  · rw [get_at_backprop_off_path s q p t hq, hd] at hd'
    injection hd' with h
    rw [h]

theorem get_at_set_scores_keeps (sc : List (String × ℚ)) (p q : List ℕ) (t : MTree)
    (d : NodeData) (hd : get_at t q = some d) :
    ∃ e, get_at (set_scores sc t p) q = some e ∧ e.visits = d.visits ∧ e.value = d.value := by
  by_cases hq : q = p
  · subst hq
    rw [get_at_set_scores_self, hd]
    exact ⟨_, rfl, rfl, rfl⟩
  · rw [get_at_set_scores_ne sc q p t hq]
    exact ⟨d, hd, rfl, rfl⟩

/-- Visits are monotone across the tree update
`backprop ∘ set_scores ∘ add_children` that every branch of a driver
iteration performs. -/
theorem visits_mono_chain (s : ℚ) (sc : List (String × ℚ)) (ks : List MTree)
    (p1 p2 p3 q : List ℕ) (t : MTree) (d d' : NodeData)
    (hd : get_at t q = some d)
    (hd' : get_at (backprop s (set_scores sc (add_children ks t p1) p2) p3) q = some d') :
    d.visits ≤ d'.visits := by
  have h1 := get_at_add_children ks q p1 t d hd
  obtain ⟨e, he, hev, _⟩ := get_at_set_scores_keeps sc p2 q (add_children ks t p1) d h1
  have := get_at_backprop_visits_mono s (set_scores sc (add_children ks t p1) p2) p3 q e d' he hd'
  omega

/-- Visits are monotone across the tree update `backprop ∘ set_scores`
(the failed-expansion and re-evaluation branches). -/
theorem visits_mono_chain2 (s : ℚ) (sc : List (String × ℚ))
    (p2 p3 q : List ℕ) (t : MTree) (d d' : NodeData)
    (hd : get_at t q = some d)
    (hd' : get_at (backprop s (set_scores sc t p2) p3) q = some d') :
    d.visits ≤ d'.visits := by
  obtain ⟨e, he, hev, _⟩ := get_at_set_scores_keeps sc p2 q t d hd
  have := get_at_backprop_visits_mono s (set_scores sc t p2) p3 q e d' he hd'
  omega

theorem mcts_iter_visits_mono (vl : Valves) (o : MctsOracle) (sel : MTree → List ℕ)
    (metrics : List String) (iter : ℕ) (st : MctsState) (q : List ℕ) (d d' : NodeData)
    (hd : get_at st.tree q = some d)
    (hd' : get_at (mcts_iter vl o sel metrics iter st).1.tree q = some d') :
    d.visits ≤ d'.visits := by
  simp only [mcts_iter] at hd'
  repeat' split at hd'
  all_goals
    first
      | exact visits_mono_chain _ _ _ _ _ _ q st.tree d d' hd hd'
      | exact visits_mono_chain2 _ _ _ _ q st.tree d d' hd hd'
      | exact get_at_backprop_visits_mono _ st.tree _ q d d' hd hd'

theorem get_at_backprop_scores (s : ℚ) (t : MTree) (p q : List ℕ) (d : NodeData)
    (hd : get_at t q = some d) :
    ∃ d', get_at (backprop s t p) q = some d' ∧ d'.scores = d.scores := by
  by_cases hq : q <+: p
  · exact ⟨bp_data s d, get_at_backprop_on_path s q p t d hq hd, rfl⟩
  · exact ⟨d, by rw [get_at_backprop_off_path s q p t hq]; exact hd, rfl⟩

/-- Across the expansion branch of an iteration (children attached at the
selected leaf, scores written to the freshly created child, backpropagation
from the child) the scores of every pre-existing node are unchanged. -/
theorem scores_kept_expand (s : ℚ) (scs : List (String × ℚ)) (ks : List MTree)
    (lp : List ℕ) (t : MTree) (sub : MTree) (hsub : get_sub t lp = some sub)
    (j : ℕ) (hj : sub.children.length ≤ j) (q : List ℕ) (d : NodeData)
    (hd : get_at t q = some d) :
    ∃ d', get_at (backprop s (set_scores scs (add_children ks t lp) (lp ++ [j])) (lp ++ [j])) q
        = some d' ∧ d'.scores = d.scores := by
  have h1 := get_at_add_children ks q lp t d hd
  have hq : q ≠ lp ++ [j] := by
    intro h
    rw [h, get_at_append_singleton_ge lp t sub hsub j hj] at hd
    cases hd
  have h2 : get_at (set_scores scs (add_children ks t lp) (lp ++ [j])) q = some d := by
    rw [get_at_set_scores_ne _ _ _ _ hq]
    exact h1
  exact get_at_backprop_scores _ _ _ q d h2

/-- Across a re-evaluation of the node at `lp` (scores written at `lp`,
backpropagation from `lp`) the scores of every other node are unchanged. -/
theorem scores_kept_seteval (s : ℚ) (scs : List (String × ℚ)) (lp q : List ℕ)
    (t : MTree) (d : NodeData) (hq : q ≠ lp) (hd : get_at t q = some d) :
    ∃ d', get_at (backprop s (set_scores scs t lp) lp) q = some d'
      ∧ d'.scores = d.scores := by
  have h2 : get_at (set_scores scs t lp) q = some d := by
    rw [get_at_set_scores_ne _ _ _ _ hq]
    exact hd
  exact get_at_backprop_scores _ _ _ q d h2

/-! The in-loop early-stop breaks of `run_loop`. -/

theorem run_loop_exit_depth (vl : Valves) (o : MctsOracle) (sel : MTree → List ℕ)
    (metrics : List String) :
    ∀ (fuel iter : ℕ) (st : MctsState),
      ((run_loop vl o sel metrics fuel iter st).exit = MctsExit.hitThreshold
        ∨ (run_loop vl o sel metrics fuel iter st).exit = MctsExit.converged) →
      vl.min_depth ≤ max_depth (run_loop vl o sel metrics fuel iter st).state.tree
  | 0, iter, st => by
    intro h
    simp [run_loop] at h
  | fuel + 1, iter, st => by
    intro h
    simp only [run_loop] at h ⊢
    split_ifs at h ⊢ with h1 h2
    · exact h1.2
    · exact h2.2
    · exact run_loop_exit_depth vl o sel metrics fuel (iter + 1) _ h

/-- C1 (amended): both in-loop stop conditions — best score at least
`early_stop_threshold`, and no-improvement counter at least
`early_stop_patience` — fire only when the tree depth has reached
`min_depth`: whenever `_run_mcts` returns through one of the two in-loop
early-stop breaks, the final tree has maximum depth at least `min_depth`.
(The pre-loop initial-root check is exempt: see the counterexample.) -/
theorem run_mcts_early_stop_depth (vl : Valves) (o : MctsOracle) (sel : MTree → List ℕ)
    (metrics : List String) (rootContent : String)
    (h : (run_mcts vl o sel metrics rootContent).exit = MctsExit.hitThreshold
       ∨ (run_mcts vl o sel metrics rootContent).exit = MctsExit.converged) :
    vl.min_depth ≤ max_depth (run_mcts vl o sel metrics rootContent).state.tree := by
  simp only [run_mcts] at h ⊢
  split_ifs at h ⊢ with h1
  · simp at h
  · exact run_loop_exit_depth vl o sel metrics vl.max_simulations 1 _ h

/-- Valves of the C1 counterexample run: `early_stop_threshold = 1.0`,
`min_depth = 3` (the configuration of spec test §8.6). -/
def vlCE1 : Valves := ⟨"key", 6, 3, 2, 1.414, 3, 1, 3, "strict", true, 3, 0.3⟩

/-- Oracle of the C1 counterexample run: every evaluation scores 5.0. -/
def oCE1 : MctsOracle :=
  ⟨fun _ => some (fun m => if m = "CLARITY" then some 5 else none, []),
   fun _ _ _ => (none, none), fun _ => 0⟩

/-- C1 counterexample: with `early_stop_threshold = 1.0` (trivially met by
the root score) and `min_depth = 3`, the run stops at the pre-loop
"content already excellent" check after zero loop iterations, with the tree
still at depth `0 < 3` — the initial root evaluation is not gated by
`min_depth`. -/
theorem run_mcts_stops_below_min_depth :
    vlCE1.early_stop_threshold
        ≤ (run_mcts vlCE1 oCE1 (fun _ => []) ["CLARITY"] "some text").state.best_score
    ∧ (run_mcts vlCE1 oCE1 (fun _ => []) ["CLARITY"] "some text").exit
        = MctsExit.initialExcellent
    ∧ (run_mcts vlCE1 oCE1 (fun _ => []) ["CLARITY"] "some text").iters = 0
    ∧ max_depth (run_mcts vlCE1 oCE1 (fun _ => []) ["CLARITY"] "some text").state.tree
        < vlCE1.min_depth := by
  with_unfolding_all decide

/-- Valves of the C1 witness run: `min_depth = 0`, patience 1. -/
def vlW1 : Valves := ⟨"key", 6, 3, 1, 1.414, 1, 10, 3, "strict", true, 0, 0.3⟩

/-- Oracle of the C1 witness run: the root scores 5.0, later evaluations
7.0, and every expansion candidate fails. -/
def oW1 : MctsOracle :=
  ⟨fun n => some (fun m => if m = "M" then some (if n = 0 then 5 else 7) else none, []),
   fun _ _ _ => (none, none), fun _ => 0⟩

theorem run_mcts_early_stop_depth_witness :
    vlW1.min_depth ≤ max_depth (run_mcts vlW1 oW1 (fun _ => []) ["M"] "hello world").state.tree :=
  run_mcts_early_stop_depth vlW1 oW1 (fun _ => []) ["M"] "hello world"
    (Or.inr (by with_unfolding_all decide))

/-- C7: one backpropagation of score `s` from the node at path `p`
increments `visits` by exactly one and adds exactly `s` to `value` for that
node and each of its ancestors up to the root (the prefixes of `p`), leaves
every node off that path entirely unchanged, and consequently `visits` is
non-decreasing — both under `backprop` itself and across a whole driver
iteration. -/
theorem backprop_updates_exactly_path :
    (∀ (s : ℚ) (t : MTree) (p q : List ℕ) (d : NodeData), q <+: p → get_at t q = some d →
      get_at (backprop s t p) q
        = some { d with visits := d.visits + 1, value := d.value + s })
    ∧ (∀ (s : ℚ) (t : MTree) (p q : List ℕ), ¬ q <+: p →
      get_at (backprop s t p) q = get_at t q)
    ∧ (∀ (s : ℚ) (t : MTree) (p q : List ℕ) (d d' : NodeData), get_at t q = some d →
      get_at (backprop s t p) q = some d' → d.visits ≤ d'.visits)
    ∧ (∀ (vl : Valves) (o : MctsOracle) (sel : MTree → List ℕ) (metrics : List String)
        (iter : ℕ) (st : MctsState) (q : List ℕ) (d d' : NodeData),
      get_at st.tree q = some d →
      get_at (mcts_iter vl o sel metrics iter st).1.tree q = some d' →
      d.visits ≤ d'.visits) :=
  ⟨fun s t p q d hq hd => get_at_backprop_on_path s q p t d hq hd,
   fun s t p q hq => get_at_backprop_off_path s q p t hq,
   fun s t p q d d' hd hd' => get_at_backprop_visits_mono s t p q d d' hd hd',
   fun vl o sel metrics iter st q d d' hd hd' =>
     mcts_iter_visits_mono vl o sel metrics iter st q d d' hd hd'⟩

/-- Concrete two-node tree for the C7 witness. -/
def wRoot : NodeData := ⟨1, "r", 1, 5, "", none, 0⟩

/-- Concrete child node for the C7 witness. -/
def wChild : NodeData := ⟨2, "c", 0, 0, "", none, 0⟩

/-- Concrete tree for the C7 witness. -/
def wTree : MTree := .node wRoot [.node wChild []]

theorem backprop_updates_exactly_path_witness :
    (([] : List ℕ) <+: [0])
    ∧ get_at (backprop 2 wTree [0]) []
        = some { wRoot with visits := wRoot.visits + 1, value := wRoot.value + 2 }
    ∧ ¬ ([1] : List ℕ) <+: [0]
    ∧ get_at (backprop 2 wTree [0]) [1] = get_at wTree [1] :=
  ⟨List.nil_prefix,
   backprop_updates_exactly_path.1 2 wTree [0] [] wRoot List.nil_prefix (get_at_nil wTree),
   by decide,
   backprop_updates_exactly_path.2.1 2 wTree [0] [1] (by decide)⟩

/-- C2 (amended): a node whose scores mapping has been set (a truthy,
non-empty mapping, as the source tests with `node.get("scores")`) keeps it
unchanged across a driver iteration, except in exactly one situation: the
node is the selected leaf of an iteration whose expansion attempt failed
totally, in which case line 574 of the source re-evaluates the leaf and
overwrites its scores in place. -/
theorem scores_stable_unless_expand_failed (vl : Valves) (o : MctsOracle)
    (sel : MTree → List ℕ) (metrics : List String) (iter : ℕ) (st : MctsState)
    (q : List ℕ) (d : NodeData) (sc : List (String × ℚ))
    (hd : get_at st.tree q = some d) (hsc : d.scores = some sc) (hne : sc ≠ []) :
    (∃ d', get_at (mcts_iter vl o sel metrics iter st).1.tree q = some d'
        ∧ d'.scores = some sc)
    ∨ ((mcts_iter vl o sel metrics iter st).2.branch = IterBranch.expandFailed
        ∧ q = (mcts_iter vl o sel metrics iter st).2.leafPath) := by
  simp only [mcts_iter]
  split
  case isTrue hsel =>
    obtain ⟨sub, hsub⟩ := Option.isSome_iff_exists.mp hsel
    rw [hsub]
    simp only [Option.getD_some]
    split
    · split
      · split
        all_goals
          refine Or.inl ?_
          obtain ⟨d', hd', hds⟩ := scores_kept_expand _ _ _ _ st.tree sub hsub _
            (Nat.le_add_right _ _) q d hd
          exact ⟨d', hd', by rw [hds, hsc]⟩
      · by_cases hq : q = sel st.tree
        · exact Or.inr ⟨rfl, hq⟩
        · obtain ⟨d', hd', hds⟩ := scores_kept_seteval _ _ _ q st.tree d hq hd
          exact Or.inl ⟨d', hd', by rw [hds, hsc]⟩
    · split
      case isTrue hfalsy =>
        by_cases hq : q = sel st.tree
        · subst hq
          rw [get_at, hsub] at hd
          have hdd : sub.data = d := Option.some.inj hd
          rw [hdd, hsc] at hfalsy
          rcases hfalsy with h | h
          · cases h
          · injection h with h
            exact absurd h hne
        · obtain ⟨d', hd', hds⟩ := scores_kept_seteval _ _ _ q st.tree d hq hd
          exact Or.inl ⟨d', hd', by rw [hds, hsc]⟩
      case isFalse =>
        obtain ⟨d', hd', hds⟩ := get_at_backprop_scores _ st.tree _ q d hd
        exact Or.inl ⟨d', hd', by rw [hds, hsc]⟩
  case isFalse hsel =>
    split
    · split
      · split
        all_goals
          refine Or.inl ?_
          obtain ⟨d', hd', hds⟩ := scores_kept_expand _ _ _ [] st.tree st.tree rfl _
            (Nat.le_add_right _ _) q d hd
          exact ⟨d', hd', by rw [hds, hsc]⟩
      · by_cases hq : q = ([] : List ℕ)
        · exact Or.inr ⟨rfl, hq⟩
        · obtain ⟨d', hd', hds⟩ := scores_kept_seteval _ _ _ q st.tree d hq hd
          exact Or.inl ⟨d', hd', by rw [hds, hsc]⟩
    · split
      case isTrue hfalsy =>
        by_cases hq : q = ([] : List ℕ)
        · subst hq
          rw [get_at_nil] at hd
          injection hd with hdd
          simp only [get_sub, Option.getD_some] at hfalsy
          rw [hdd, hsc] at hfalsy
          rcases hfalsy with h | h
          · cases h
          · injection h with h
            exact absurd h hne
        · obtain ⟨d', hd', hds⟩ := scores_kept_seteval _ _ _ q st.tree d hq hd
          exact Or.inl ⟨d', hd', by rw [hds, hsc]⟩
      case isFalse =>
        obtain ⟨d', hd', hds⟩ := get_at_backprop_scores _ st.tree _ q d hd
        exact Or.inl ⟨d', hd', by rw [hds, hsc]⟩

/-- Valves of the C2 counterexample run (threshold 9 so the loop runs). -/
def vlCE2 : Valves := ⟨"key", 1, 3, 1, 1.414, 3, 9, 3, "strict", true, 1, 0.3⟩

/-- Oracle of the C2 counterexample run: the first evaluation scores 5.0,
every later one 7.0; every expansion candidate fails (no critique). -/
def oCE2 : MctsOracle :=
  ⟨fun n => some (fun m => if m = "M" then some (if n = 0 then 5 else 7) else none, []),
   fun _ _ _ => (none, none), fun _ => 0⟩

/-- The state after the initial root evaluation of the C2 counterexample. -/
def stCE2 : MctsState := mcts_init ["M"] oCE2 "hello world"

/-- C2 counterexample: after the initial evaluation the root's scores
mapping is `{"M": 5.0}`; the next driver iteration selects the root, its
expansion attempt fails, and the root is re-evaluated in place — its scores
mapping is replaced by `{"M": 7.0}`. -/
theorem root_scores_replaced_counterexample :
    (get_at stCE2.tree []).map NodeData.scores = some (some [("M", 5)])
    ∧ (mcts_iter vlCE2 oCE2 (fun _ => []) ["M"] 1 stCE2).2.branch = IterBranch.expandFailed
    ∧ (get_at (mcts_iter vlCE2 oCE2 (fun _ => []) ["M"] 1 stCE2).1.tree []).map NodeData.scores
        = some (some [("M", 7)])
    ∧ ([(("M" : String), (5 : ℚ))] ≠ [("M", 7)]) := by
  with_unfolding_all decide

/-- Root node of the C2 witness state: unvisited but already scored. -/
def w2Root : NodeData := ⟨1, "r", 0, 0, "", some [("M", 5)], 0⟩

/-- The C2 witness state. -/
def stW2 : MctsState := ⟨MTree.node w2Root [], 5, [], 0, 1, 1, 1, []⟩

theorem scores_stable_unless_expand_failed_witness :
    (∃ d', get_at (mcts_iter vlCE2 oCE2 (fun _ => []) ["M"] 1 stW2).1.tree [] = some d'
        ∧ d'.scores = some [("M", 5)])
    ∨ ((mcts_iter vlCE2 oCE2 (fun _ => []) ["M"] 1 stW2).2.branch = IterBranch.expandFailed
        ∧ [] = (mcts_iter vlCE2 oCE2 (fun _ => []) ["M"] 1 stW2).2.leafPath) :=
  scores_stable_unless_expand_failed vlCE2 oCE2 (fun _ => []) ["M"] 1 stW2 [] w2Root
    [("M", 5)] (by decide) (by decide) (by decide)

/-- C3: for a node with `visits ≥ 1` whose parent (the node at the path
without its last index) has `visits ≥ 1`, the UCT value is
`v/n + c·sqrt(ln(N+1)/n) + depthBonus·(depth/(depth+2))`, with the depth the
node's distance from the root (the path length); an unvisited node has
UCT = +infinity. -/
theorem uct_value_formula :
    (∀ (vl : Valves) (t : MTree) (p : List ℕ) (d pd : NodeData),
      get_at t p = some d → p ≠ [] → get_at t p.dropLast = some pd →
      1 ≤ d.visits → 1 ≤ pd.visits →
      uct_value vl t p = UctVal.val ((d.value : ℝ) / (d.visits : ℝ)
        + (vl.exploration_weight : ℝ)
          * Real.sqrt (Real.log ((pd.visits : ℝ) + 1) / (d.visits : ℝ))
        + (vl.depth_bonus : ℝ) * ((p.length : ℝ) / ((p.length : ℝ) + 2))))
    ∧ (∀ (vl : Valves) (t : MTree) (p : List ℕ) (d : NodeData),
      get_at t p = some d → d.visits = 0 → uct_value vl t p = UctVal.inf) := by
  constructor
  · intro vl t p d pd hd hp hpd h1 h2
    unfold uct_value
    rw [hd]
    cases p with
    | nil => exact absurd rfl hp
    | cons i p' =>
      rw [hpd]
      dsimp only
      rw [if_neg (by omega), if_neg (by omega)]
      rfl
  · intro vl t p d hd h0
    unfold uct_value
    rw [hd]
    dsimp only
    rw [if_pos h0]

/-- Concrete valves for the C3 witness. -/
def uctValves : Valves := ⟨"key", 6, 3, 2, 3 / 2, 3, 9, 3, "strict", true, 3, 3 / 10⟩

/-- Parent node of the C3 witness tree. -/
def uctRoot : NodeData := ⟨1, "r", 2, 3, "", none, 0⟩

/-- Child node of the C3 witness tree. -/
def uctChild : NodeData := ⟨2, "c", 1, 2, "", none, 0⟩

/-- Concrete tree for the C3 witness. -/
def uctTree : MTree := .node uctRoot [.node uctChild []]

theorem uct_value_formula_witness :
    uct_value uctValves uctTree [0]
      = UctVal.val ((uctChild.value : ℝ) / (uctChild.visits : ℝ)
        + (uctValves.exploration_weight : ℝ)
          * Real.sqrt (Real.log ((uctRoot.visits : ℝ) + 1) / (uctChild.visits : ℝ))
        + (uctValves.depth_bonus : ℝ)
          * ((([0] : List ℕ).length : ℝ) / ((([0] : List ℕ).length : ℝ) + 2)))
    ∧ uct_value uctValves (MTree.node wChild []) [] = UctVal.inf :=
  ⟨uct_value_formula.1 uctValves uctTree [0] uctChild uctRoot rfl (by decide) rfl
      (by decide) (by decide),
   uct_value_formula.2 uctValves (MTree.node wChild []) [] wChild rfl (by decide)⟩

/-- Behaviour of the retry loop from an arbitrary starting attempt: precise
call count, back-off sleep trace, and the success/failure conditions. -/
theorem llm_call_aux_spec (resp : ℕ → RawResponse) (jit : ℕ → ℚ) (maxR : ℕ) :
    ∀ (fuel a : ℕ), a + fuel = maxR →
      (llm_call_aux resp jit maxR fuel a).2.1 ≤ fuel
      ∧ (1 ≤ fuel → 1 ≤ (llm_call_aux resp jit maxR fuel a).2.1)
      ∧ (llm_call_aux resp jit maxR fuel a).2.2
          = (List.range ((llm_call_aux resp jit maxR fuel a).2.1 - 1)).map
              (fun k => (2 : ℚ) ^ (a + k) + jit (a + k))
      ∧ (∀ s, (llm_call_aux resp jit maxR fuel a).1 = some s →
          raw_success (resp (a + (llm_call_aux resp jit maxR fuel a).2.1 - 1)) = some s
          ∧ ∀ k, k < (llm_call_aux resp jit maxR fuel a).2.1 - 1 →
              raw_success (resp (a + k)) = none)
      ∧ ((llm_call_aux resp jit maxR fuel a).1 = none →
          (llm_call_aux resp jit maxR fuel a).2.1 = fuel
          ∧ ∀ k, k < fuel → raw_success (resp (a + k)) = none)
  | 0, a, _ => by
    refine ⟨Nat.le_refl 0, by omega, by simp [llm_call_aux], ?_, ?_⟩
    · intro s hs
      simp [llm_call_aux] at hs
    · intro _
      exact ⟨rfl, fun k hk => absurd hk (Nat.not_lt_zero k)⟩
  | fuel + 1, a, ha => by
    rw [llm_call_aux]
    cases hr : raw_success (resp a) with
    | some s =>
      dsimp only
      refine ⟨by omega, by omega, by simp, ?_, ?_⟩
      · intro s' hs'
        injection hs' with hss
        subst hss
        constructor
        · simpa using hr
        · intro k hk
          simp at hk
      · intro hnone
        cases hnone
    | none =>
      dsimp only
      by_cases hlast : a < maxR - 1
      · have hfuel : 1 ≤ fuel := by omega
        obtain ⟨ih1, ih1b, ih2, ih3, ih4⟩ := llm_call_aux_spec resp jit maxR fuel (a + 1) (by omega)
        rw [if_pos hlast]
        cases hrec : llm_call_aux resp jit maxR fuel (a + 1) with
        | mk r rest =>
          cases rest with
          | mk n sl =>
            rw [hrec] at ih1 ih1b ih2 ih3 ih4
            dsimp only at ih1 ih1b ih2 ih3 ih4 ⊢
            have hn1 : 1 ≤ n := ih1b hfuel
            refine ⟨by omega, by omega, ?_, ?_, ?_⟩
            · have hsplit : n + 1 - 1 = (n - 1) + 1 := by omega
              rw [hsplit, List.range_succ_eq_map, List.map_cons, List.map_map]
              rw [ih2]
              congr 1
              apply List.map_congr_left
              intro j _
              simp only [Function.comp_apply, Nat.succ_eq_add_one]
              have hj : a + (j + 1) = a + 1 + j := by omega
              rw [hj]
            · intro s hs
              obtain ⟨hsucc, hfail⟩ := ih3 s hs
              constructor
              · have hidx : a + (n + 1) - 1 = a + 1 + n - 1 := by omega
                rw [hidx]
                exact hsucc
              · intro k hk
                cases k with
                | zero => simpa using hr
                | succ k' =>
                  have hk' : a + (k' + 1) = a + 1 + k' := by omega
                  rw [hk']
                  exact hfail k' (by omega)
            · intro hnone
              obtain ⟨hn, hfail⟩ := ih4 hnone
              refine ⟨by omega, ?_⟩
              intro k hk
              cases k with
              | zero => simpa using hr
              | succ k' =>
                have hk' : a + (k' + 1) = a + 1 + k' := by omega
                rw [hk']
                exact hfail k' (by omega)
      · rw [if_neg hlast]
        dsimp only
        have hfuel0 : fuel = 0 := by omega
        refine ⟨by omega, by omega, by simp, ?_, ?_⟩
        · intro s hs
          cases hs
        · intro _
          refine ⟨by omega, ?_⟩
          intro k hk
          have hk0 : k = 0 := by omega
          subst hk0
          simpa using hr

/-- C4 (amended): every logical completion call makes at most `max_retries`
raw attempts, sleeping `2^attempt + random(0,1)` seconds after each failed
attempt but the last; the loop stops early exactly at the first attempt
returning truthy content, and otherwise uses all `max_retries` attempts.
A non-200 status in `{429, 500, 502, 503}` raises a retryable error while
any other non-200 status returns no value — but the retry wrapper treats
both identically, so a non-retryable status does not end the logical call
early (contrary to the claim; see the counterexample). -/
theorem llm_call_retry_spec :
    (∀ (resp : ℕ → RawResponse) (jit : ℕ → ℚ) (maxR : ℕ),
      (llm_call resp jit maxR).2.1 ≤ maxR
      ∧ (llm_call resp jit maxR).2.2
          = (List.range ((llm_call resp jit maxR).2.1 - 1)).map
              (fun k => (2 : ℚ) ^ k + jit k)
      ∧ (∀ s, (llm_call resp jit maxR).1 = some s →
          raw_success (resp ((llm_call resp jit maxR).2.1 - 1)) = some s
          ∧ ∀ k, k < (llm_call resp jit maxR).2.1 - 1 → raw_success (resp k) = none)
      ∧ ((llm_call resp jit maxR).1 = none →
          (llm_call resp jit maxR).2.1 = maxR
          ∧ ∀ k, k < maxR → raw_success (resp k) = none))
    ∧ (∀ r : RawResponse, r.status ≠ 200 →
        ((r.status = 429 ∨ r.status = 500 ∨ r.status = 502 ∨ r.status = 503) →
          llm_call_raw r
            = RawOutcome.raised ("API " ++ toString r.status ++ ": " ++ take200 r.body))
        ∧ (¬ (r.status = 429 ∨ r.status = 500 ∨ r.status = 502 ∨ r.status = 503) →
          llm_call_raw r = RawOutcome.value none)) := by
  constructor
  · intro resp jit maxR
    obtain ⟨h1, _, h2, h3, h4⟩ := llm_call_aux_spec resp jit maxR maxR 0 (by omega)
    refine ⟨h1, ?_, ?_, ?_⟩
    · rw [llm_call, h2]
      apply List.map_congr_left
      intro j _
      rw [Nat.zero_add]
    · intro s hs
      obtain ⟨hsucc, hfail⟩ := h3 s hs
      rw [Nat.zero_add] at hsucc
      exact ⟨hsucc, fun k hk => by simpa using hfail k hk⟩
    · intro hnone
      obtain ⟨hn, hfail⟩ := h4 hnone
      exact ⟨hn, fun k hk => by simpa using hfail k hk⟩
  · intro r hr
    constructor
    · intro hs
      unfold llm_call_raw
      rw [if_pos hr, if_pos hs]
    · intro hs
      unfold llm_call_raw
      rw [if_pos hr, if_neg hs]

/-- C4 counterexample: a 404 is not one of the retryable statuses and makes
`_llm_call_raw` return `None` rather than raise — yet the retry wrapper
retries it: with `max_retries = 3` the logical call performs three raw
attempts, not one, so a non-retryable non-200 status is not terminal for
the logical call. -/
theorem llm_call_terminal_counterexample :
    ((404 : ℕ) ≠ 429 ∧ (404 : ℕ) ≠ 500 ∧ (404 : ℕ) ≠ 502 ∧ (404 : ℕ) ≠ 503)
    ∧ llm_call_raw ⟨404, "not found", none⟩ = RawOutcome.value none
    ∧ (llm_call (fun _ => ⟨404, "not found", none⟩) (fun _ => 0) 3).2.1 = 3
    ∧ (3 : ℕ) ≠ 1 := by
  with_unfolding_all decide

/-- Concrete responses for the C4 witness: two 503 failures, then success. -/
def c4Resp : ℕ → RawResponse :=
  fun n => if n = 2 then ⟨200, "", some " ok "⟩ else ⟨503, "busy", none⟩

/-- Concrete jitter samples for the C4 witness. -/
def c4Jit : ℕ → ℚ := fun _ => 1 / 2

theorem llm_call_retry_spec_witness :
    (llm_call c4Resp c4Jit 3).2.1 ≤ 3
    ∧ (raw_success (c4Resp ((llm_call c4Resp c4Jit 3).2.1 - 1)) = some "ok"
        ∧ ∀ k, k < (llm_call c4Resp c4Jit 3).2.1 - 1 → raw_success (c4Resp k) = none) :=
  ⟨(llm_call_retry_spec.1 c4Resp c4Jit 3).1,
   (llm_call_retry_spec.1 c4Resp c4Jit 3).2.2.1 "ok" (by with_unfolding_all decide)⟩

/-- Stripped length of an optional completion result (a failed call is as
empty as an empty string). -/
def opt_strip_len (o : Option String) : ℕ := py_len (py_strip (o.getD ""))

/-- Stripped text of an optional completion result. -/
def opt_stripped (o : Option String) : String := py_strip (o.getD "")

/-- C5: an expansion candidate is rejected — `_create_child` returns no
node — exactly when the critique is empty/failed or under 10 characters
(stripped), or the rewritten content is empty/failed or under 50 characters
(stripped), or the rewritten content's length is below 70% of the parent
content's length, or the word-set Jaccard similarity between the parent and
the rewritten content exceeds 0.95.  In particular a candidate with
similarity 0.97 is rejected and one with similarity 0.80 passing the other
checks is accepted. -/
theorem create_child_rejects_iff (p : String) (cr nc : Option String) :
    create_child p cr nc = none ↔
      (opt_strip_len cr < 10 ∨ opt_strip_len nc < 50
        ∨ (opt_strip_len nc : ℚ) < (py_len p : ℚ) * 0.7
        ∨ 0.95 < similarity p (opt_stripped nc)) := by
  cases cr with
  | none =>
    constructor
    · intro _
      exact Or.inl (by decide)
    · intro _
      rfl
  | some c =>
    cases nc with
    | none =>
      constructor
      · intro _
        exact Or.inr (Or.inl (by decide))
      · intro _
        simp only [create_child]
        split
        · rfl
        · rfl
    | some n =>
      simp only [create_child, opt_strip_len, opt_stripped, Option.getD_some]
      split_ifs with h1 h2 h3 h4
      · simp [h1]
      · simp [h1, h2]
      · simp [h1, h2, h3]
      · simp [h1, h2, h3, h4]
      · simp [h1, h2, h3, h4]

/-- C9: a configured `grading_strictness` outside the four presets silently
resolves to `"strict"` — both the scoring guide and the persona used are the
`"strict"` ones — and the set of presets actually consulted is exactly
`{relaxed, normal, strict, brutal}` in both tables. -/
theorem strictness_fallback_spec :
    (∀ s, s ∉ ["relaxed", "normal", "strict", "brutal"] →
      resolve_strictness s = "strict"
      ∧ scoring_guide_used s = (alookup STRICTNESS_GUIDES "strict").getD ""
      ∧ persona_used s = (alookup STRICTNESS_PERSONAS "strict").getD "")
    ∧ (∀ s, (alookup STRICTNESS_GUIDES s).isSome
        ↔ s ∈ ["relaxed", "normal", "strict", "brutal"])
    ∧ (∀ s, (alookup STRICTNESS_PERSONAS s).isSome
        ↔ s ∈ ["relaxed", "normal", "strict", "brutal"]) := by
  refine ⟨?_, ?_, ?_⟩
  · intro s hs
    simp only [List.mem_cons, List.not_mem_nil, or_false, not_or] at hs
    obtain ⟨hs1, hs2, hs3, hs4⟩ := hs
    have hn : alookup STRICTNESS_GUIDES s = none := by
      simp only [STRICTNESS_GUIDES, alookup]
      rw [if_neg (fun h => hs1 h.symm), if_neg (fun h => hs2 h.symm),
        if_neg (fun h => hs3 h.symm), if_neg (fun h => hs4 h.symm)]
    refine ⟨?_, ?_, ?_⟩
    · simp [resolve_strictness, hn]
    · simp [scoring_guide_used, resolve_strictness, hn]
    · simp [persona_used, resolve_strictness, hn]
  · intro s
    simp only [STRICTNESS_GUIDES, alookup, List.mem_cons, List.not_mem_nil, or_false]
    split_ifs with a b c d <;> simp_all [eq_comm]
  · intro s
    simp only [STRICTNESS_PERSONAS, alookup, List.mem_cons, List.not_mem_nil, or_false]
    split_ifs with a b c d <;> simp_all [eq_comm]

theorem strictness_fallback_spec_witness :
    "harsh" ∉ ["relaxed", "normal", "strict", "brutal"]
    ∧ resolve_strictness "harsh" = "strict" :=
  ⟨by decide, (strictness_fallback_spec.1 "harsh" (by decide)).1⟩

theorem clamp_score_bounds (v : ℚ) : 1 ≤ clamp_score v ∧ clamp_score v ≤ 10 :=
  ⟨le_min (by norm_num) (le_max_left 1 v), min_le_left _ _⟩

theorem alookup_mem {α : Type} :
    ∀ (l : List (String × α)) (m : String) (v : α), alookup l m = some v → (m, v) ∈ l
  | [], _, _, h => by cases h
  | (k, w) :: rest, m, v, h => by
    by_cases hk : k = m
    · subst hk
      rw [alookup, if_pos rfl] at h
      injection h with h
      subst h
      exact List.mem_cons_self _ _
    · rw [alookup, if_neg hk] at h
      exact List.mem_cons_of_mem _ (alookup_mem rest m v h)

/-- The average of a non-empty list of scores in `[1, 10]` is itself in
`[1, 10]`. -/
theorem avg_bounds (l : List ℚ) (hne : l ≠ []) (h : ∀ x ∈ l, 1 ≤ x ∧ x ≤ 10) :
    1 ≤ l.sum / (l.length : ℚ) ∧ l.sum / (l.length : ℚ) ≤ 10 := by
  have hlen : 0 < l.length := List.length_pos.mpr hne
  have hpos : (0 : ℚ) < (l.length : ℚ) := by exact_mod_cast hlen
  constructor
  · rw [le_div_iff hpos, one_mul]
    have h1 := List.card_nsmul_le_sum l 1 (fun x hx => (h x hx).1)
    rw [nsmul_eq_mul, mul_one] at h1
    exact h1
  · rw [div_le_iff hpos]
    have h2 := List.sum_le_card_nsmul l 10 (fun x hx => (h x hx).2)
    rw [nsmul_eq_mul] at h2
    linarith

/-- The final fill-with-average step of `_parse_dynamic_scores` keeps all
scores in `[1, 10]`. -/
theorem parse_final_bounds (metrics : List String) (S l : List (String × ℚ))
    (hbS : ∀ pr ∈ S, 1 ≤ pr.2 ∧ pr.2 ≤ 10)
    (hl : (if S = [] then none
        else some (S ++ (metrics.filter (fun m => (alookup S m).isNone)).map
          (fun m => (m, (S.map Prod.snd).sum / (S.length : ℚ))))) = some l) :
    ∀ pr ∈ l, 1 ≤ pr.2 ∧ pr.2 ≤ 10 := by
  split at hl
  · cases hl
  case isFalse hne =>
    have hl' := Option.some.inj hl
    subst hl'
    intro pr hpr
    rw [List.mem_append] at hpr
    rcases hpr with hpr | hpr
    · exact hbS pr hpr
    · rw [List.mem_map] at hpr
      obtain ⟨m, _, hm⟩ := hpr
      rw [← hm]
      have hmapne : S.map Prod.snd ≠ [] := fun hmap => hne (List.map_eq_nil_iff.mp hmap)
      have hvals : ∀ x ∈ S.map Prod.snd, 1 ≤ x ∧ x ≤ 10 := by
        intro x hx
        rw [List.mem_map] at hx
        obtain ⟨pr', hpr', hx'⟩ := hx
        rw [← hx']
        exact hbS pr' hpr'
      have hres := avg_bounds _ hmapne hvals
      simpa using hres

/-- Every score in a successfully parsed mapping is in `[1, 10]`. -/
theorem parse_dynamic_scores_bounds (metrics : List String) (direct : String → Option ℚ)
    (bare : List ℚ) (l : List (String × ℚ))
    (hl : parse_dynamic_scores metrics direct bare = some l) :
    ∀ pr ∈ l, 1 ≤ pr.2 ∧ pr.2 ≤ 10 := by
  simp only [parse_dynamic_scores] at hl
  set scores1 := metrics.filterMap (fun m => (direct m).map (fun v => (m, clamp_score v)))
    with hs1
  have hb1 : ∀ pr ∈ scores1, 1 ≤ pr.2 ∧ pr.2 ≤ 10 := by
    intro pr hpr
    rw [hs1, List.mem_filterMap] at hpr
    obtain ⟨m, _, hm⟩ := hpr
    cases hd : direct m with
    | none => rw [hd] at hm; cases hm
    | some v =>
      rw [hd] at hm
      have hm' : (m, clamp_score v) = pr := Option.some.inj hm
      rw [← hm']
      exact clamp_score_bounds v
  set nums := bare.filter (fun n => decide (1 ≤ n ∧ n ≤ 10)) with hnums
  have hbn : ∀ x ∈ nums, 1 ≤ x ∧ x ≤ 10 := by
    intro x hx
    rw [hnums, List.mem_filter] at hx
    exact of_decide_eq_true hx.2
  by_cases hhalf : (scores1.length : ℚ) < (metrics.length : ℚ) / 2
  · rw [if_pos hhalf] at hl
    by_cases hempty : nums = []
    · rw [if_pos hempty] at hl
      exact parse_final_bounds metrics scores1 l hb1 hl
    · rw [if_neg hempty] at hl
      refine parse_final_bounds metrics _ l ?_ hl
      intro pr hpr
      rw [List.mem_append] at hpr
      rcases hpr with hpr | hpr
      · exact hb1 pr hpr
      · rw [List.mem_map] at hpr
        obtain ⟨m, _, hm⟩ := hpr
        rw [← hm]
        exact avg_bounds nums hempty hbn
  · rw [if_neg hhalf] at hl
    exact parse_final_bounds metrics scores1 l hb1 hl

/-- C6: for every evaluator response — including malformed and empty text —
every metric score produced by evaluation lies in `[1.0, 10.0]`: direct
matches are clamped into the range, the bare-number fallback only admits
numbers in `[1, 10]` and averages them, and an unrecoverable response makes
every metric default to `1.0`. -/
theorem evaluate_scores_in_bounds :
    (∀ (metrics : List String) (resp : Option ((String → Option ℚ) × List ℚ))
        (m : String) (v : ℚ),
      alookup (evaluate_node_scores metrics resp) m = some v → 1 ≤ v ∧ v ≤ 10)
    ∧ (∀ (metrics : List String) (direct : String → Option ℚ) (bare : List ℚ),
      parse_dynamic_scores metrics direct bare = none →
      evaluate_node_scores metrics (some (direct, bare))
        = metrics.map (fun m => (m, 1))) := by
  constructor
  · intro metrics resp m v hv
    have hmem := alookup_mem _ m v hv
    cases resp with
    | none =>
      simp only [evaluate_node_scores] at hmem
      rw [List.mem_map] at hmem
      obtain ⟨m', _, hm⟩ := hmem
      cases hm
      norm_num
    | some pr =>
      obtain ⟨direct, bare⟩ := pr
      simp only [evaluate_node_scores] at hmem
      cases hp : parse_dynamic_scores metrics direct bare with
      | none =>
        rw [hp] at hmem
        rw [List.mem_map] at hmem
        obtain ⟨m', _, hm⟩ := hmem
        cases hm
        norm_num
      | some L =>
        rw [hp] at hmem
        exact parse_dynamic_scores_bounds metrics direct bare L hp (m, v) hmem
  · intro metrics direct bare hp
    simp [evaluate_node_scores, hp]

theorem evaluate_scores_in_bounds_witness :
    (1 : ℚ) ≤ 10 ∧ (10 : ℚ) ≤ 10 :=
  evaluate_scores_in_bounds.1 ["A"]
    (some (fun m => if m = "A" then some 15 else none, [])) "A" 10
    (by with_unfolding_all decide)

theorem word_list_nodup (s : String) : (word_list s).Nodup := List.nodup_dedup _

theorem inter_len_card (A B : List (List Char)) (hA : A.Nodup) :
    inter_len A B = (A.toFinset ∩ B.toFinset).card := by
  unfold inter_len
  rw [← List.toFinset_card_of_nodup (hA.filter _)]
  congr 1
  ext w
  simp

theorem union_list_card (A B : List (List Char)) (hA : A.Nodup) (hB : B.Nodup) :
    (union_list A B).length = (A.toFinset ∪ B.toFinset).card := by
  unfold union_list
  have hnd : (A ++ B.filter (fun w => !A.contains w)).Nodup := by
    refine List.Nodup.append hA (hB.filter _) ?_
    intro a haA haF
    rw [List.mem_filter] at haF
    have hcontra := haF.2
    simp at hcontra
    exact hcontra haA
  rw [← List.toFinset_card_of_nodup hnd]
  congr 1
  ext w
  simp
  tauto

/-- C10: the word-set Jaccard similarity used for near-duplicate rejection
is symmetric, lies in `[0, 1]`, equals 1 when the two strings have
identical non-empty lower-cased word sets, and equals 0 whenever either
string contains no words. -/
theorem similarity_props :
    (∀ a b, similarity a b = similarity b a)
    ∧ (∀ a b, 0 ≤ similarity a b ∧ similarity a b ≤ 1)
    ∧ (∀ a b, word_list a ≠ [] → (word_list a).toFinset = (word_list b).toFinset →
        similarity a b = 1)
    ∧ (∀ a b, word_list a = [] ∨ word_list b = [] → similarity a b = 0) := by
  refine ⟨?_, ?_, ?_, ?_⟩
  · intro a b
    simp only [similarity]
    by_cases ha : word_list a = []
    · rw [if_pos (Or.inl ha), if_pos (Or.inr ha)]
    · by_cases hb : word_list b = []
      · rw [if_pos (Or.inr hb), if_pos (Or.inl hb)]
      · rw [if_neg (by tauto), if_neg (by tauto)]
        rw [inter_len_card _ _ (word_list_nodup a), inter_len_card _ _ (word_list_nodup b),
          union_list_card _ _ (word_list_nodup a) (word_list_nodup b),
          union_list_card _ _ (word_list_nodup b) (word_list_nodup a),
          Finset.inter_comm, Finset.union_comm]
  · intro a b
    simp only [similarity]
    split_ifs with h
    · norm_num
    · have hA : word_list a ≠ [] := by tauto
      have hu : 0 < (union_list (word_list a) (word_list b)).length := by
        unfold union_list
        rw [List.length_append]
        have hla : 0 < (word_list a).length := List.length_pos.mpr hA
        omega
      have hupos : (0 : ℚ) < ((union_list (word_list a) (word_list b)).length : ℚ) := by
        exact_mod_cast hu
      constructor
      · positivity
      · rw [div_le_one hupos]
        have hle : inter_len (word_list a) (word_list b)
            ≤ (union_list (word_list a) (word_list b)).length := by
          unfold inter_len union_list
          rw [List.length_append]
          have hf := List.length_filter_le (fun w => (word_list b).contains w) (word_list a)
          omega
        exact_mod_cast hle
  · intro a b hA hset
    have hB : word_list b ≠ [] := by
      intro hb
      rw [hb] at hset
      simp at hset
      exact hA hset
    simp only [similarity]
    rw [if_neg (by tauto)]
    rw [inter_len_card _ _ (word_list_nodup a),
      union_list_card _ _ (word_list_nodup a) (word_list_nodup b), hset,
      Finset.inter_self, Finset.union_self]
    have hcard : 0 < (word_list b).toFinset.card := by
      rw [List.toFinset_card_of_nodup (word_list_nodup b)]
      exact List.length_pos.mpr hB
    rw [div_self]
    exact_mod_cast hcard.ne'
  · intro a b h
    simp only [similarity]
    rw [if_pos h]

theorem similarity_props_witness :
    word_list "Hello world" ≠ []
    ∧ (word_list "Hello world").toFinset = (word_list "WORLD hello").toFinset
    ∧ similarity "Hello world" "WORLD hello" = 1
    ∧ similarity "" "abc" = 0 :=
  ⟨by decide, by decide,
   similarity_props.2.2.1 "Hello world" "WORLD hello" (by decide) (by decide),
   similarity_props.2.2.2 "" "abc" (Or.inl (by decide))⟩

/-- A string starting with `p` keeps starting with `p` after appending. -/
theorem startswith_chain (p s rest : String) (hps : ∃ t, s = p ++ t) :
    ∃ t, s ++ rest = p ++ t := by
  obtain ⟨t, rfl⟩ := hps
  exact ⟨t ++ rest, by rw [String.append_assoc]⟩

/-- C8: for every input, goal, and completion-service behaviour,
`improve_content` returns a string that is either an error report starting
with the distinct marker `"⚠️ "` or a success report starting with the fixed
"Optimization Complete" header — the two are distinguishable by their first
characters.  In this embedding every completion-service failure is an
oracle value handled to a string, so no service failure can propagate an
exception out of `improve_content`. -/
theorem improve_content_output_shape (vl : Valves) (o : ImproveOracle) (text goal : String) :
    (∃ r, improve_content vl o text goal = "⚠️ " ++ r)
    ∨ (∃ r, improve_content vl o text goal = "\n---\n\n## ✨ Optimization Complete!" ++ r) := by
  simp only [improve_content]
  split_ifs with h1 h2 h3 h4
  · exact Or.inl ⟨"**Error:** API Key required in Valves settings.", rfl⟩
  · exact Or.inl ⟨"**Error:** No text provided to improve.", rfl⟩
  · split
    · exact Or.inl (startswith_chain "⚠️ "
        "⚠️ **Error:** Could not generate evaluation metrics.\n\nDetails: " _
        ⟨"**Error:** Could not generate evaluation metrics.\n\nDetails: ", rfl⟩)
    · refine Or.inr ?_
      simp only [format_final_output]
      repeat apply startswith_chain
      exact ⟨"\n\n### 🎯 Goal\n", rfl⟩
  · split
    · exact Or.inl (startswith_chain "⚠️ "
        "⚠️ **Error:** Could not generate evaluation metrics.\n\nDetails: " _
        ⟨"**Error:** Could not generate evaluation metrics.\n\nDetails: ", rfl⟩)
    · refine Or.inr ?_
      simp only [format_final_output]
      repeat apply startswith_chain
      exact ⟨"\n\n### 🎯 Goal\n", rfl⟩
  · exact Or.inl (startswith_chain "⚠️ " "⚠️ **API Error:** " _
      ⟨"**API Error:** ", rfl⟩)

end MctsOpt
